import Mathlib

/-
Verification of the Firefox bookmarks/history index-rebuild pipeline
(albert_plugin_firefox_bookmarks, src/__init__.py), as a shallow embedding.

External effects are made explicit:
* the SQLite stores become input flags (does the file exist?) plus a query
  outcome (rows, or a query-execution error caught at the query boundary);
* the favicons directory becomes a list of (file name, byte list) entries,
  with per-file failure flags for unlink and write (an OS error on a file
  operation is uncaught in the source and aborts the rebuild);
* the searchable-string construction models Python f-string semantics:
  interpolating the value None yields the text "None", and a bytes value is
  truthy exactly when it is non-empty.
-/

namespace Firefox

/-- Bytes of a file or blob, one Nat per byte. -/
abbrev Bytes := List Nat

/-- Python str(x) for an optional string: None renders as "None". -/
def pyStrOpt : Option String → String
  | none => "None"
  | some t => t

/-- Python truthiness of an optional string: falsy iff None or empty. -/
def pyTruthyStr : Option String → Bool
  | none => false
  | some t => !(t == "")

/-- Python truthiness of an optional bytes value: falsy iff None or empty. -/
def pyTruthyBytes : Option Bytes → Bool
  | none => false
  | some b => !(b == [])

/-- ASCII-style lowercasing, modelling Python str.lower on the data involved. -/
def pyLower (s : String) : String :=
  ⟨s.data.map Char.toLower⟩

/-- Python str.startswith, over the character data. -/
def pyStartsWith (s p : String) : Bool :=
  p.data.isPrefixOf s.data

/-- A row of the bookmarks query: guid, title (nullable), url, url_hash. -/
structure BookmarkRecord where
  guid : String
  title : Option String
  url : String
  url_hash : Nat
  deriving DecidableEq

/-- A row of the history query: guid, title (nullable), url. -/
structure HistoryRecord where
  guid : String
  title : Option String
  url : String
  deriving DecidableEq

/-- Outcome of executing a fixed query against an open store: either the rows,
or a query-execution error (sqlite3.Error) caught at the query boundary. -/
inductive QueryOutcome (α : Type) where
  | rows (rs : α)
  | sqliteError
  deriving DecidableEq

/-- FileNotFoundError raised by get_connection when the store file is absent. -/
inductive StoreError where
  | fileNotFound
  deriving DecidableEq

/-- get_bookmarks: get_connection raises FileNotFoundError when the file does
not exist (not caught here); a sqlite3.Error during the query is caught,
logged critical, and yields the empty list. -/
def get_bookmarks (placesExists : Bool)
    (q : QueryOutcome (List BookmarkRecord)) :
    Except StoreError (List BookmarkRecord) :=
  if placesExists then
    match q with
    | .rows rs => .ok rs
    | .sqliteError => .ok []
  else
    .error .fileNotFound

/-- get_history: same shape as get_bookmarks. -/
def get_history (placesExists : Bool)
    (q : QueryOutcome (List HistoryRecord)) :
    Except StoreError (List HistoryRecord) :=
  if placesExists then
    match q with
    | .rows rs => .ok rs
    | .sqliteError => .ok []
  else
    .error .fileNotFound

/-- The dict comprehension building the favicons mapping: later rows with the
same page_url_hash overwrite earlier ones. -/
def faviconsDict (rs : List (Nat × Bytes)) : Nat → Option Bytes :=
  fun h => (rs.foldl (fun acc row => if row.1 = h then some row.2 else acc) none)

/-- get_favicons_data: FileNotFoundError propagates; a sqlite3.Error is caught,
logged warning, and yields the empty mapping. -/
def get_favicons_data (faviconsExists : Bool)
    (q : QueryOutcome (List (Nat × Bytes))) :
    Except StoreError (Nat → Option Bytes) :=
  if faviconsExists then
    match q with
    | .rows rs => .ok (faviconsDict rs)
    | .sqliteError => .ok (fun _ => none)
  else
    .error .fileNotFound

/-! ## Profile locator -/

/-- One section of profiles.ini: its name and its Path value when present. -/
structure IniSection where
  name : String
  path : Option String
  deriving DecidableEq

/-- The parsed registry: sections in file order, or a read error
(unreadable/malformed file, caught by the except clause). -/
abbrev Registry := Except Unit (List IniSection)

/-- The loop body of get_available_profiles, written as the source writes it:
walk sections in order, keep the Path of each Profile-prefixed section whose
profile directory holds both places.sqlite and favicons.sqlite. -/
def profilesLoop (hasPlaces hasFavicons : String → Bool) :
    List IniSection → List String
  | [] => []
  | s :: rest =>
    if pyStartsWith s.name "Profile" then
      match s.path with
      | some p =>
        if hasPlaces p && hasFavicons p then
          p :: profilesLoop hasPlaces hasFavicons rest
        else
          profilesLoop hasPlaces hasFavicons rest
      | none => profilesLoop hasPlaces hasFavicons rest
    else
      profilesLoop hasPlaces hasFavicons rest

/-- get_available_profiles: empty when the Firefox root is absent; empty when
reading the registry raises (caught, warning logged); otherwise the loop. -/
def get_available_profiles (rootExists : Bool) (registry : Registry)
    (hasPlaces hasFavicons : String → Bool) : List String :=
  if rootExists then
    match registry with
    | .error _ => []
    | .ok sections => profilesLoop hasPlaces hasFavicons sections
  else
    []

/-- Modelled from the spec: the profile list as section 4.1 words it, namely
the registered paths of Profile-prefixed sections whose directories hold both
store files, in registry order. -/
def list_profiles_spec (hasPlaces hasFavicons : String → Bool)
    (sections : List IniSection) : List String :=
  (sections.filter fun s =>
      pyStartsWith s.name "Profile" && s.path.isSome &&
        hasPlaces (s.path.getD "") && hasFavicons (s.path.getD "")).map
    (fun s => s.path.getD "")

theorem list_profiles_spec_cons (hasPlaces hasFavicons : String → Bool)
    (s : IniSection) (rest : List IniSection) :
    list_profiles_spec hasPlaces hasFavicons (s :: rest) =
      (if pyStartsWith s.name "Profile" && s.path.isSome &&
          hasPlaces (s.path.getD "") && hasFavicons (s.path.getD "") then
        [s.path.getD ""] else []) ++
        list_profiles_spec hasPlaces hasFavicons rest := by
  unfold list_profiles_spec
  rw [List.filter_cons]
  by_cases h : (pyStartsWith s.name "Profile" && s.path.isSome &&
      hasPlaces (s.path.getD "") && hasFavicons (s.path.getD "")) = true
  · simp [h]
  · simp [h]

theorem profilesLoop_eq_spec (hasPlaces hasFavicons : String → Bool)
    (sections : List IniSection) :
    profilesLoop hasPlaces hasFavicons sections =
      list_profiles_spec hasPlaces hasFavicons sections := by
  induction sections with
  | nil => rfl
  | cons s rest ih =>
    rw [list_profiles_spec_cons]
    cases hname : pyStartsWith s.name "Profile" with
    | false =>
      rw [profilesLoop, if_neg (by simp [hname]), ih]
      simp [hname]
    | true =>
      cases hpath : s.path with
      | none =>
        rw [profilesLoop, if_pos (by simp [hname])]
        simp [hpath, ih]
      | some p =>
        rw [profilesLoop, if_pos (by simp [hname])]
        cases hp : hasPlaces p <;> cases hf : hasFavicons p <;>
          simp [hpath, hname, hp, hf, ih]

/-! ## Items and actions -/

/-- The side effect an action closure performs; the URL it acts on is bound
at construction time via the lambda default argument (lambda u=url: ...). -/
inductive ActionOp where
  | openUrl (u : String)
  | setClipboardText (u : String)
  deriving DecidableEq

/-- An Action(id, text, callable). -/
structure IndexAction where
  id : String
  text : String
  op : ActionOp
  deriving DecidableEq

/-- A StandardItem as built by the rebuild. -/
structure StandardItem where
  id : String
  text : String
  subtext : String
  iconUrls : List String
  actions : List IndexAction
  deriving DecidableEq

/-- An IndexItem: a StandardItem plus its searchable string. -/
structure IndexItem where
  item : StandardItem
  string : String
  deriving DecidableEq

/-- Path of the bundled bookmark fallback icon (plugin directory). -/
def firefox_bookmark_icon : String := "firefox_bookmark.svg"

/-- Path of the bundled history icon (plugin directory). -/
def firefox_history_icon : String := "firefox_history.svg"

/-- The searchable string: the f-string interpolation of title and url,
lowercased.  A None title interpolates as the text "None". -/
def searchableString (title : Option String) (url : String) : String :=
  pyLower (pyStrOpt title ++ " " ++ url)

/-- Display text: the title when truthy, else the url. -/
def displayText (title : Option String) (url : String) : String :=
  if pyTruthyStr title then title.getD "" else url

/-- The two actions attached to every item, both bound to the given url. -/
def itemActions (url : String) : List IndexAction :=
  [⟨"open", "Open in Firefox", .openUrl url⟩,
   ⟨"copy", "Copy URL", .setClipboardText url⟩]

/-- The icon url list for a bookmark: the written favicon file when the blob
is truthy (present and non-empty), else the bundled fallback icon plus the
OS-theme hint, in that order. -/
def bookmarkIconUrls (loc guid : String) (blob : Option Bytes) : List String :=
  if pyTruthyBytes blob then
    ["file:" ++ loc ++ "/favicon_" ++ guid ++ ".png", "xdg:firefox"]
  else
    ["file:" ++ firefox_bookmark_icon, "xdg:firefox"]

/-- The IndexItem built for a bookmark record. -/
def bookmarkIndexItem (loc : String) (favicons : Nat → Option Bytes)
    (b : BookmarkRecord) : IndexItem :=
  { item := { id := b.guid, text := displayText b.title b.url, subtext := b.url,
              iconUrls := bookmarkIconUrls loc b.guid (favicons b.url_hash),
              actions := itemActions b.url },
    string := searchableString b.title b.url }

/-- The IndexItem built for a history record (fixed history icon). -/
def historyIndexItem (h : HistoryRecord) : IndexItem :=
  { item := { id := h.guid, text := displayText h.title h.url, subtext := h.url,
              iconUrls := ["file:" ++ firefox_history_icon, "xdg:firefox"],
              actions := itemActions h.url },
    string := searchableString h.title h.url }

/-! ## The favicons directory -/

/-- The favicons directory, as a list of (file name, contents) entries. -/
abbrev Dir := List (String × Bytes)

/-- Which file operations raise an OSError, per file name.  Such errors are
not caught anywhere in the rebuild. -/
structure FsEnv where
  unlinkFails : String → Bool
  writeFails : String → Bool

/-- Writing a file: replace the entry when the name exists, else append. -/
def setEntry (d : Dir) (name : String) (b : Bytes) : Dir :=
  if d.any (fun e => e.1 == name) then
    d.map (fun e => if e.1 == name then (name, b) else e)
  else
    d ++ [(name, b)]

/-- The unlink loop clearing the directory at the start of a rebuild: files
are removed in directory order; the first failing unlink raises, leaving that
file and every later file in place. -/
def clearLoop (unlinkFails : String → Bool) : Dir → Option Unit × Dir
  | [] => (none, [])
  | e :: rest =>
    if unlinkFails e.1 then (some (), e :: rest)
    else clearLoop unlinkFails rest

/-! ## The build loops -/

/-- Result of a build loop: whether an uncaught exception was raised, the
directory afterwards, the seen-URL set, and the items appended. -/
structure LoopOut where
  raised : Bool
  dir : Dir
  seen : List String
  items : List IndexItem
  deriving DecidableEq

/-- The bookmark loop: skip already-seen URLs, mark seen, write the favicon
file when the blob is truthy (a write failure raises, aborting the loop),
and append the item. -/
def processBookmarks (env : FsEnv) (loc : String)
    (favicons : Nat → Option Bytes) :
    List BookmarkRecord → List String → Dir → LoopOut
  | [], seen, dir => ⟨false, dir, seen, []⟩
  | b :: rest, seen, dir =>
    if b.url ∈ seen then
      processBookmarks env loc favicons rest seen dir
    else if pyTruthyBytes (favicons b.url_hash) then
      if env.writeFails ("favicon_" ++ b.guid ++ ".png") then
        ⟨true, dir, b.url :: seen, []⟩
      else
        let out := processBookmarks env loc favicons rest (b.url :: seen)
          (setEntry dir ("favicon_" ++ b.guid ++ ".png")
            ((favicons b.url_hash).getD []))
        ⟨out.raised, out.dir, out.seen,
          bookmarkIndexItem loc favicons b :: out.items⟩
    else
      let out := processBookmarks env loc favicons rest (b.url :: seen) dir
      ⟨out.raised, out.dir, out.seen,
        bookmarkIndexItem loc favicons b :: out.items⟩

/-- The history loop: skip already-seen URLs (the seen set carries over from
the bookmark loop), mark seen, append the item. -/
def processHistory : List HistoryRecord → List String →
    List String × List IndexItem
  | [], seen => (seen, [])
  | h :: rest, seen =>
    if h.url ∈ seen then processHistory rest seen
    else
      let out := processHistory rest (h.url :: seen)
      (out.1, historyIndexItem h :: out.2)

/-! ## The rebuild task -/

/-- The external inputs of one run of update_index_items_task. -/
structure TaskInput where
  placesExists : Bool
  faviconsExists : Bool
  bookmarksQuery : QueryOutcome (List BookmarkRecord)
  historyQuery : QueryOutcome (List HistoryRecord)
  faviconsQuery : QueryOutcome (List (Nat × Bytes))
  index_history : Bool

/-- The observable outcome of one run: whether it raised, the favicons
directory afterwards, the published item list (none when the run raised
before reaching setIndexItems), and which store queries were executed. -/
structure TaskResult where
  raised : Bool
  fs : Dir
  published : Option (List IndexItem)
  reads : List String
  deriving DecidableEq

/-- One run of update_index_items_task over explicit inputs: read bookmarks
(FileNotFoundError propagates), clear the favicons directory (an unlink
failure propagates), read the favicons mapping, run the bookmark loop, then
the history loop when index_history holds, and publish via setIndexItems. -/
def update_index_items_task (inp : TaskInput) (env : FsEnv) (loc : String)
    (fs0 : Dir) : TaskResult :=
  match get_bookmarks inp.placesExists inp.bookmarksQuery with
  | .error _ => ⟨true, fs0, none, ["bookmarks"]⟩
  | .ok bookmarks =>
    match clearLoop env.unlinkFails fs0 with
    | (some _, dir1) => ⟨true, dir1, none, ["bookmarks"]⟩
    | (none, dir1) =>
      match get_favicons_data inp.faviconsExists inp.faviconsQuery with
      | .error _ => ⟨true, dir1, none, ["bookmarks", "favicons"]⟩
      | .ok favicons =>
        if (processBookmarks env loc favicons bookmarks [] dir1).raised then
          ⟨true, (processBookmarks env loc favicons bookmarks [] dir1).dir,
            none, ["bookmarks", "favicons"]⟩
        else if inp.index_history then
          match get_history inp.placesExists inp.historyQuery with
          | .error _ =>
            ⟨true, (processBookmarks env loc favicons bookmarks [] dir1).dir,
              none, ["bookmarks", "favicons", "history"]⟩
          | .ok history =>
            ⟨false, (processBookmarks env loc favicons bookmarks [] dir1).dir,
              some ((processBookmarks env loc favicons bookmarks [] dir1).items ++
                (processHistory history
                  (processBookmarks env loc favicons bookmarks [] dir1).seen).2),
              ["bookmarks", "favicons", "history"]⟩
        else
          ⟨false, (processBookmarks env loc favicons bookmarks [] dir1).dir,
            some (processBookmarks env loc favicons bookmarks [] dir1).items,
            ["bookmarks", "favicons"]⟩

/-- The bookmark rows the task works with (empty after a caught query error;
irrelevant when the store file is missing, since the task raises first). -/
def taskBookmarks (inp : TaskInput) : List BookmarkRecord :=
  match get_bookmarks inp.placesExists inp.bookmarksQuery with
  | .ok l => l
  | .error _ => []

/-- The history rows the task works with. -/
def taskHistory (inp : TaskInput) : List HistoryRecord :=
  match get_history inp.placesExists inp.historyQuery with
  | .ok l => l
  | .error _ => []

/-- The favicons mapping the task works with. -/
def taskFavicons (inp : TaskInput) : Nat → Option Bytes :=
  match get_favicons_data inp.faviconsExists inp.faviconsQuery with
  | .ok f => f
  | .error _ => fun _ => none

/-- The published item list of a run, empty when nothing was published. -/
def publishedItems (r : TaskResult) : List IndexItem :=
  r.published.getD []

/-- The bookmark loop over the cleared directory, as run by a task that got
past the clearing phase. -/
def taskOut (inp : TaskInput) (env : FsEnv) (loc : String) : LoopOut :=
  processBookmarks env loc (taskFavicons inp) (taskBookmarks inp) [] []

/-! ## Directory lemmas -/

theorem mem_setEntry_self (d : Dir) (n : String) (b : Bytes) :
    (n, b) ∈ setEntry d n b := by
  unfold setEntry
  split
  · rename_i h
    rcases List.any_eq_true.mp h with ⟨e, he, hen⟩
    exact List.mem_map.mpr ⟨e, he, by simp [hen]⟩
  · simp

theorem mem_setEntry_of_ne (d : Dir) (n : String) (b : Bytes) (m : String)
    (c : Bytes) (h : (m, c) ∈ d) (hne : m ≠ n) : (m, c) ∈ setEntry d n b := by
  unfold setEntry
  split
  · exact List.mem_map.mpr ⟨(m, c), h, by simp [hne]⟩
  · exact List.mem_append_left _ h

theorem mem_setEntry (d : Dir) (n : String) (b : Bytes) (e : String × Bytes)
    (h : e ∈ setEntry d n b) : e ∈ d ∨ e = (n, b) := by
  unfold setEntry at h
  split at h
  · rcases List.mem_map.mp h with ⟨x, hx, hxe⟩
    by_cases hxn : (x.1 == n) = true
    · right; rw [if_pos hxn] at hxe; exact hxe.symm
    · left; rw [if_neg hxn] at hxe; exact hxe ▸ hx
  · rcases List.mem_append.mp h with h1 | h1
    · exact Or.inl h1
    · right; simpa using h1

theorem clearLoop_fst_none (u : String → Bool) :
    ∀ d : Dir, (clearLoop u d).1 = none → (clearLoop u d).2 = [] := by
  intro d
  induction d with
  | nil => intro _; rfl
  | cons e rest ih =>
    intro h
    unfold clearLoop at h ⊢
    split at h
    · simp at h
    · rename_i hu
      rw [if_neg hu]
      exact ih h

theorem clearLoop_no_fail (u : String → Bool) :
    ∀ d : Dir, (∀ e ∈ d, u e.1 = false) → clearLoop u d = (none, []) := by
  intro d
  induction d with
  | nil => intro _; rfl
  | cons e rest ih =>
    intro h
    unfold clearLoop
    rw [if_neg (by simp [h e (List.mem_cons_self e rest)])]
    exact ih fun x hx => h x (List.mem_cons_of_mem e hx)

theorem clearLoop_split (u : String → Bool) (pre post : Dir) (f : String)
    (b : Bytes) (hpre : ∀ x ∈ pre, u x.1 = false) (hf : u f = true) :
    clearLoop u (pre ++ (f, b) :: post) = (some (), (f, b) :: post) := by
  induction pre with
  | nil =>
    rw [List.nil_append]
    unfold clearLoop
    rw [if_pos hf]
  | cons x rest ih =>
    rw [List.cons_append]
    unfold clearLoop
    rw [if_neg (by simp [hpre x (List.mem_cons_self x rest)])]
    exact ih fun y hy => hpre y (List.mem_cons_of_mem x hy)

theorem favicon_name_inj (g1 g2 : String)
    (h : "favicon_" ++ g1 ++ ".png" = "favicon_" ++ g2 ++ ".png") :
    g1 = g2 := by
  have hd : ("favicon_" ++ g1 ++ ".png").data = ("favicon_" ++ g2 ++ ".png").data := by
    rw [h]
  simp only [String.data_append, List.append_assoc] at hd
  have h2 := List.append_cancel_left hd
  have h3 : g1.data = g2.data := List.append_cancel_right h2
  cases g1; cases g2; exact congrArg String.mk h3

/-! ## Bookmark-loop unfolding lemmas, one per branch -/

theorem pb_nil (env : FsEnv) (loc : String) (fav : Nat → Option Bytes)
    (seen : List String) (dir : Dir) :
    processBookmarks env loc fav [] seen dir = ⟨false, dir, seen, []⟩ := rfl

theorem pb_skip (env : FsEnv) (loc : String) (fav : Nat → Option Bytes)
    (b : BookmarkRecord) (rest : List BookmarkRecord) (seen : List String)
    (dir : Dir) (hmem : b.url ∈ seen) :
    processBookmarks env loc fav (b :: rest) seen dir =
      processBookmarks env loc fav rest seen dir := by
  rw [processBookmarks, if_pos hmem]

theorem pb_wfail (env : FsEnv) (loc : String) (fav : Nat → Option Bytes)
    (b : BookmarkRecord) (rest : List BookmarkRecord) (seen : List String)
    (dir : Dir) (hmem : b.url ∉ seen)
    (htr : pyTruthyBytes (fav b.url_hash) = true)
    (hwf : env.writeFails ("favicon_" ++ b.guid ++ ".png") = true) :
    processBookmarks env loc fav (b :: rest) seen dir =
      ⟨true, dir, b.url :: seen, []⟩ := by
  rw [processBookmarks, if_neg hmem, if_pos htr, if_pos hwf]

theorem pb_write (env : FsEnv) (loc : String) (fav : Nat → Option Bytes)
    (b : BookmarkRecord) (rest : List BookmarkRecord) (seen : List String)
    (dir : Dir) (hmem : b.url ∉ seen)
    (htr : pyTruthyBytes (fav b.url_hash) = true)
    (hwf : ¬env.writeFails ("favicon_" ++ b.guid ++ ".png") = true) :
    processBookmarks env loc fav (b :: rest) seen dir =
      (let out := processBookmarks env loc fav rest (b.url :: seen)
        (setEntry dir ("favicon_" ++ b.guid ++ ".png")
          ((fav b.url_hash).getD []))
       ⟨out.raised, out.dir, out.seen,
         bookmarkIndexItem loc fav b :: out.items⟩) := by
  rw [processBookmarks, if_neg hmem, if_pos htr, if_neg hwf]

theorem pb_nofav (env : FsEnv) (loc : String) (fav : Nat → Option Bytes)
    (b : BookmarkRecord) (rest : List BookmarkRecord) (seen : List String)
    (dir : Dir) (hmem : b.url ∉ seen)
    (htr : ¬pyTruthyBytes (fav b.url_hash) = true) :
    processBookmarks env loc fav (b :: rest) seen dir =
      (let out := processBookmarks env loc fav rest (b.url :: seen) dir
       ⟨out.raised, out.dir, out.seen,
         bookmarkIndexItem loc fav b :: out.items⟩) := by
  rw [processBookmarks, if_neg hmem, if_neg htr]

theorem ph_nil (seen : List String) : processHistory [] seen = (seen, []) := rfl

theorem ph_skip (h : HistoryRecord) (rest : List HistoryRecord)
    (seen : List String) (hmem : h.url ∈ seen) :
    processHistory (h :: rest) seen = processHistory rest seen := by
  rw [processHistory, if_pos hmem]

theorem ph_cons (h : HistoryRecord) (rest : List HistoryRecord)
    (seen : List String) (hmem : h.url ∉ seen) :
    processHistory (h :: rest) seen =
      ((processHistory rest (h.url :: seen)).1,
        historyIndexItem h :: (processHistory rest (h.url :: seen)).2) := by
  rw [processHistory, if_neg hmem]

theorem bookmarkIndexItem_subtext (loc : String) (fav : Nat → Option Bytes)
    (b : BookmarkRecord) : (bookmarkIndexItem loc fav b).item.subtext = b.url :=
  rfl

theorem historyIndexItem_subtext (h : HistoryRecord) :
    (historyIndexItem h).item.subtext = h.url := rfl

/-! ## Bookmark-loop invariants -/

theorem pb_seen_subset (env : FsEnv) (loc : String) (fav : Nat → Option Bytes) :
    ∀ (bms : List BookmarkRecord) (seen : List String) (dir : Dir),
      ∀ u ∈ seen, u ∈ (processBookmarks env loc fav bms seen dir).seen := by
  intro bms
  induction bms with
  | nil => intro seen dir u hu; rw [pb_nil]; exact hu
  | cons b rest ih =>
    intro seen dir u hu
    by_cases hmem : b.url ∈ seen
    · rw [pb_skip env loc fav b rest seen dir hmem]
      exact ih seen dir u hu
    · by_cases htr : pyTruthyBytes (fav b.url_hash) = true
      · by_cases hwf : env.writeFails ("favicon_" ++ b.guid ++ ".png") = true
        · rw [pb_wfail env loc fav b rest seen dir hmem htr hwf]
          exact List.mem_cons_of_mem _ hu
        · rw [pb_write env loc fav b rest seen dir hmem htr hwf]
          exact ih (b.url :: seen) _ u (List.mem_cons_of_mem _ hu)
      · rw [pb_nofav env loc fav b rest seen dir hmem htr]
        exact ih (b.url :: seen) dir u (List.mem_cons_of_mem _ hu)

theorem pb_items_fresh (env : FsEnv) (loc : String) (fav : Nat → Option Bytes) :
    ∀ (bms : List BookmarkRecord) (seen : List String) (dir : Dir),
      ∀ it ∈ (processBookmarks env loc fav bms seen dir).items,
        it.item.subtext ∉ seen := by
  intro bms
  induction bms with
  | nil => intro seen dir it hit; rw [pb_nil] at hit; simp at hit
  | cons b rest ih =>
    intro seen dir it hit
    by_cases hmem : b.url ∈ seen
    · rw [pb_skip env loc fav b rest seen dir hmem] at hit
      exact ih seen dir it hit
    · by_cases htr : pyTruthyBytes (fav b.url_hash) = true
      · by_cases hwf : env.writeFails ("favicon_" ++ b.guid ++ ".png") = true
        · rw [pb_wfail env loc fav b rest seen dir hmem htr hwf] at hit
          simp at hit
        · rw [pb_write env loc fav b rest seen dir hmem htr hwf] at hit
          rcases List.mem_cons.mp hit with h1 | h1
          · rw [h1, bookmarkIndexItem_subtext]; exact hmem
          · intro hc
            exact ih (b.url :: seen) _ it h1 (List.mem_cons_of_mem _ hc)
      · rw [pb_nofav env loc fav b rest seen dir hmem htr] at hit
        rcases List.mem_cons.mp hit with h1 | h1
        · rw [h1, bookmarkIndexItem_subtext]; exact hmem
        · intro hc
          exact ih (b.url :: seen) dir it h1 (List.mem_cons_of_mem _ hc)

theorem pb_items_nodup (env : FsEnv) (loc : String) (fav : Nat → Option Bytes) :
    ∀ (bms : List BookmarkRecord) (seen : List String) (dir : Dir),
      ((processBookmarks env loc fav bms seen dir).items.map
        (fun it => it.item.subtext)).Nodup := by
  intro bms
  induction bms with
  | nil => intro seen dir; rw [pb_nil]; simp
  | cons b rest ih =>
    intro seen dir
    by_cases hmem : b.url ∈ seen
    · rw [pb_skip env loc fav b rest seen dir hmem]; exact ih seen dir
    · by_cases htr : pyTruthyBytes (fav b.url_hash) = true
      · by_cases hwf : env.writeFails ("favicon_" ++ b.guid ++ ".png") = true
        · rw [pb_wfail env loc fav b rest seen dir hmem htr hwf]; simp
        · rw [pb_write env loc fav b rest seen dir hmem htr hwf]
          simp only [List.map_cons, List.nodup_cons, bookmarkIndexItem_subtext]
          refine ⟨?_, ih (b.url :: seen) _⟩
          intro hc
          rcases List.mem_map.mp hc with ⟨it, hit, hsub⟩
          exact pb_items_fresh env loc fav rest (b.url :: seen) _ it hit
            (hsub ▸ List.mem_cons_self b.url seen)
      · rw [pb_nofav env loc fav b rest seen dir hmem htr]
        simp only [List.map_cons, List.nodup_cons, bookmarkIndexItem_subtext]
        refine ⟨?_, ih (b.url :: seen) dir⟩
        intro hc
        rcases List.mem_map.mp hc with ⟨it, hit, hsub⟩
        exact pb_items_fresh env loc fav rest (b.url :: seen) dir it hit
          (hsub ▸ List.mem_cons_self b.url seen)

theorem pb_items_mem_seen (env : FsEnv) (loc : String) (fav : Nat → Option Bytes) :
    ∀ (bms : List BookmarkRecord) (seen : List String) (dir : Dir),
      ∀ it ∈ (processBookmarks env loc fav bms seen dir).items,
        it.item.subtext ∈ (processBookmarks env loc fav bms seen dir).seen := by
  intro bms
  induction bms with
  | nil => intro seen dir it hit; rw [pb_nil] at hit; simp at hit
  | cons b rest ih =>
    intro seen dir it hit
    by_cases hmem : b.url ∈ seen
    · rw [pb_skip env loc fav b rest seen dir hmem] at hit ⊢
      exact ih seen dir it hit
    · by_cases htr : pyTruthyBytes (fav b.url_hash) = true
      · by_cases hwf : env.writeFails ("favicon_" ++ b.guid ++ ".png") = true
        · rw [pb_wfail env loc fav b rest seen dir hmem htr hwf] at hit
          simp at hit
        · rw [pb_write env loc fav b rest seen dir hmem htr hwf] at hit ⊢
          rcases List.mem_cons.mp hit with h1 | h1
          · rw [h1, bookmarkIndexItem_subtext]
            exact pb_seen_subset env loc fav rest (b.url :: seen) _ b.url
              (List.mem_cons_self b.url seen)
          · exact ih (b.url :: seen) _ it h1
      · rw [pb_nofav env loc fav b rest seen dir hmem htr] at hit ⊢
        rcases List.mem_cons.mp hit with h1 | h1
        · rw [h1, bookmarkIndexItem_subtext]
          exact pb_seen_subset env loc fav rest (b.url :: seen) dir b.url
            (List.mem_cons_self b.url seen)
        · exact ih (b.url :: seen) dir it h1

theorem pb_url_mem_seen (env : FsEnv) (loc : String) (fav : Nat → Option Bytes) :
    ∀ (bms : List BookmarkRecord) (seen : List String) (dir : Dir),
      (processBookmarks env loc fav bms seen dir).raised = false →
      ∀ b ∈ bms, b.url ∈ (processBookmarks env loc fav bms seen dir).seen := by
  intro bms
  induction bms with
  | nil => intro seen dir _ b hb; simp at hb
  | cons c rest ih =>
    intro seen dir hraised b hb
    by_cases hmem : c.url ∈ seen
    · rw [pb_skip env loc fav c rest seen dir hmem] at hraised ⊢
      rcases List.mem_cons.mp hb with h1 | h1
      · rw [h1]
        exact pb_seen_subset env loc fav rest seen dir c.url hmem
      · exact ih seen dir hraised b h1
    · by_cases htr : pyTruthyBytes (fav c.url_hash) = true
      · by_cases hwf : env.writeFails ("favicon_" ++ c.guid ++ ".png") = true
        · rw [pb_wfail env loc fav c rest seen dir hmem htr hwf] at hraised
          simp at hraised
        · rw [pb_write env loc fav c rest seen dir hmem htr hwf] at hraised ⊢
          rcases List.mem_cons.mp hb with h1 | h1
          · rw [h1]
            exact pb_seen_subset env loc fav rest (c.url :: seen) _ c.url
              (List.mem_cons_self c.url seen)
          · exact ih (c.url :: seen) _ hraised b h1
      · rw [pb_nofav env loc fav c rest seen dir hmem htr] at hraised ⊢
        rcases List.mem_cons.mp hb with h1 | h1
        · rw [h1]
          exact pb_seen_subset env loc fav rest (c.url :: seen) dir c.url
            (List.mem_cons_self c.url seen)
        · exact ih (c.url :: seen) dir hraised b h1

theorem pyTruthyBytes_some (o : Option Bytes) (h : pyTruthyBytes o = true) :
    ∃ bl, o = some bl ∧ bl ≠ [] := by
  cases o with
  | none => simp [pyTruthyBytes] at h
  | some bl =>
    refine ⟨bl, rfl, ?_⟩
    simpa [pyTruthyBytes] using h

theorem pb_items_provenance (env : FsEnv) (loc : String)
    (fav : Nat → Option Bytes) :
    ∀ (bms : List BookmarkRecord) (seen : List String) (dir : Dir),
      ∀ it ∈ (processBookmarks env loc fav bms seen dir).items,
        ∃ b, bms.find? (fun r => r.url == it.item.subtext) = some b ∧
          it = bookmarkIndexItem loc fav b := by
  intro bms
  induction bms with
  | nil => intro seen dir it hit; rw [pb_nil] at hit; simp at hit
  | cons c rest ih =>
    intro seen dir it hit
    by_cases hmem : c.url ∈ seen
    · rw [pb_skip env loc fav c rest seen dir hmem] at hit
      have hfresh := pb_items_fresh env loc fav rest seen dir it hit
      have hne : (c.url == it.item.subtext) = false := by
        refine beq_eq_false_iff_ne.mpr ?_
        intro hc; exact hfresh (hc ▸ hmem)
      rcases ih seen dir it hit with ⟨b, hfind, heq⟩
      exact ⟨b, by rw [List.find?_cons_of_neg _ (by simp [hne]), hfind], heq⟩
    · by_cases htr : pyTruthyBytes (fav c.url_hash) = true
      · by_cases hwf : env.writeFails ("favicon_" ++ c.guid ++ ".png") = true
        · rw [pb_wfail env loc fav c rest seen dir hmem htr hwf] at hit
          simp at hit
        · rw [pb_write env loc fav c rest seen dir hmem htr hwf] at hit
          rcases List.mem_cons.mp hit with h1 | h1
          · refine ⟨c, ?_, h1⟩
            rw [h1, bookmarkIndexItem_subtext]
            exact List.find?_cons_of_pos _ (by simp)
          · have hfresh := pb_items_fresh env loc fav rest (c.url :: seen) _ it h1
            have hne : (c.url == it.item.subtext) = false := by
              refine beq_eq_false_iff_ne.mpr ?_
              intro hc
              exact hfresh (hc ▸ List.mem_cons_self c.url seen)
            rcases ih (c.url :: seen) _ it h1 with ⟨b, hfind, heq⟩
            exact ⟨b, by rw [List.find?_cons_of_neg _ (by simp [hne]), hfind], heq⟩
      · rw [pb_nofav env loc fav c rest seen dir hmem htr] at hit
        rcases List.mem_cons.mp hit with h1 | h1
        · refine ⟨c, ?_, h1⟩
          rw [h1, bookmarkIndexItem_subtext]
          exact List.find?_cons_of_pos _ (by simp)
        · have hfresh := pb_items_fresh env loc fav rest (c.url :: seen) dir it h1
          have hne : (c.url == it.item.subtext) = false := by
            refine beq_eq_false_iff_ne.mpr ?_
            intro hc
            exact hfresh (hc ▸ List.mem_cons_self c.url seen)
          rcases ih (c.url :: seen) dir it h1 with ⟨b, hfind, heq⟩
          exact ⟨b, by rw [List.find?_cons_of_neg _ (by simp [hne]), hfind], heq⟩

theorem pb_item_of_first (env : FsEnv) (loc : String)
    (fav : Nat → Option Bytes) (b : BookmarkRecord) :
    ∀ (bms : List BookmarkRecord) (seen : List String) (dir : Dir),
      (processBookmarks env loc fav bms seen dir).raised = false →
      bms.find? (fun r => r.url == b.url) = some b →
      b.url ∉ seen →
      bookmarkIndexItem loc fav b ∈
        (processBookmarks env loc fav bms seen dir).items := by
  intro bms
  induction bms with
  | nil => intro seen dir _ hfind _; simp at hfind
  | cons c rest ih =>
    intro seen dir hraised hfind hseen
    by_cases hc : (c.url == b.url) = true
    · rw [List.find?_cons_of_pos _ (by simp [hc])] at hfind
      have hcb : c = b := by simpa using hfind
      subst hcb
      have hmem : c.url ∉ seen := hseen
      by_cases htr : pyTruthyBytes (fav c.url_hash) = true
      · by_cases hwf : env.writeFails ("favicon_" ++ c.guid ++ ".png") = true
        · rw [pb_wfail env loc fav c rest seen dir hmem htr hwf] at hraised
          simp at hraised
        · rw [pb_write env loc fav c rest seen dir hmem htr hwf]
          exact List.mem_cons_self _ _
      · rw [pb_nofav env loc fav c rest seen dir hmem htr]
        exact List.mem_cons_self _ _
    · have hcb : c.url ≠ b.url := by simpa using hc
      rw [List.find?_cons_of_neg _ (by simp [hc])] at hfind
      by_cases hmem : c.url ∈ seen
      · rw [pb_skip env loc fav c rest seen dir hmem] at hraised ⊢
        exact ih seen dir hraised hfind hseen
      · have hseen' : b.url ∉ c.url :: seen := by
          intro hx
          rcases List.mem_cons.mp hx with h1 | h1
          · exact hcb h1.symm
          · exact hseen h1
        by_cases htr : pyTruthyBytes (fav c.url_hash) = true
        · by_cases hwf : env.writeFails ("favicon_" ++ c.guid ++ ".png") = true
          · rw [pb_wfail env loc fav c rest seen dir hmem htr hwf] at hraised
            simp at hraised
          · rw [pb_write env loc fav c rest seen dir hmem htr hwf] at hraised ⊢
            exact List.mem_cons_of_mem _ (ih (c.url :: seen) _ hraised hfind hseen')
        · rw [pb_nofav env loc fav c rest seen dir hmem htr] at hraised ⊢
          exact List.mem_cons_of_mem _ (ih (c.url :: seen) dir hraised hfind hseen')

theorem pb_dir_preserve (env : FsEnv) (loc : String)
    (fav : Nat → Option Bytes) :
    ∀ (bms : List BookmarkRecord) (seen : List String) (dir : Dir)
      (n : String) (bts : Bytes),
      (n, bts) ∈ dir →
      (∀ x ∈ bms, ¬("favicon_" ++ x.guid ++ ".png" = n)) →
      (n, bts) ∈ (processBookmarks env loc fav bms seen dir).dir := by
  intro bms
  induction bms with
  | nil => intro seen dir n bts h _; rw [pb_nil]; exact h
  | cons c rest ih =>
    intro seen dir n bts h hnames
    have hrest : ∀ x ∈ rest, ¬("favicon_" ++ x.guid ++ ".png" = n) :=
      fun x hx => hnames x (List.mem_cons_of_mem c hx)
    by_cases hmem : c.url ∈ seen
    · rw [pb_skip env loc fav c rest seen dir hmem]
      exact ih seen dir n bts h hrest
    · by_cases htr : pyTruthyBytes (fav c.url_hash) = true
      · by_cases hwf : env.writeFails ("favicon_" ++ c.guid ++ ".png") = true
        · rw [pb_wfail env loc fav c rest seen dir hmem htr hwf]
          exact h
        · rw [pb_write env loc fav c rest seen dir hmem htr hwf]
          refine ih (c.url :: seen) _ n bts ?_ hrest
          exact mem_setEntry_of_ne dir _ _ n bts h
            fun hne => hnames c (List.mem_cons_self c rest) hne.symm
      · rw [pb_nofav env loc fav c rest seen dir hmem htr]
        exact ih (c.url :: seen) dir n bts h hrest

theorem pb_dir_chars (env : FsEnv) (loc : String)
    (fav : Nat → Option Bytes) :
    ∀ (bms : List BookmarkRecord) (seen : List String) (dir : Dir),
      ∀ e ∈ (processBookmarks env loc fav bms seen dir).dir,
        e ∈ dir ∨ ∃ x ∈ bms, e.1 = "favicon_" ++ x.guid ++ ".png" ∧
          fav x.url_hash = some e.2 ∧ e.2 ≠ [] := by
  intro bms
  induction bms with
  | nil => intro seen dir e he; rw [pb_nil] at he; exact Or.inl he
  | cons c rest ih =>
    intro seen dir e he
    by_cases hmem : c.url ∈ seen
    · rw [pb_skip env loc fav c rest seen dir hmem] at he
      rcases ih seen dir e he with h1 | ⟨x, hx, hrest⟩
      · exact Or.inl h1
      · exact Or.inr ⟨x, List.mem_cons_of_mem c hx, hrest⟩
    · by_cases htr : pyTruthyBytes (fav c.url_hash) = true
      · by_cases hwf : env.writeFails ("favicon_" ++ c.guid ++ ".png") = true
        · rw [pb_wfail env loc fav c rest seen dir hmem htr hwf] at he
          exact Or.inl he
        · rw [pb_write env loc fav c rest seen dir hmem htr hwf] at he
          rcases ih (c.url :: seen) _ e he with h1 | ⟨x, hx, hrest⟩
          · rcases mem_setEntry dir _ _ e h1 with h2 | h2
            · exact Or.inl h2
            · rcases pyTruthyBytes_some (fav c.url_hash) htr with ⟨bl, hbl, hbl0⟩
              refine Or.inr ⟨c, List.mem_cons_self c rest, ?_, ?_, ?_⟩
              · rw [h2]
              · rw [h2, hbl]; simp [hbl]
              · rw [h2, hbl]; simpa using hbl0
          · exact Or.inr ⟨x, List.mem_cons_of_mem c hx, hrest⟩
      · rw [pb_nofav env loc fav c rest seen dir hmem htr] at he
        rcases ih (c.url :: seen) dir e he with h1 | ⟨x, hx, hrest⟩
        · exact Or.inl h1
        · exact Or.inr ⟨x, List.mem_cons_of_mem c hx, hrest⟩

theorem pb_file_of_first (env : FsEnv) (loc : String)
    (fav : Nat → Option Bytes) (b : BookmarkRecord) (blob : Bytes)
    (hfav : fav b.url_hash = some blob) (hbl : blob ≠ []) :
    ∀ (bms : List BookmarkRecord) (seen : List String) (dir : Dir),
      (processBookmarks env loc fav bms seen dir).raised = false →
      bms.find? (fun r => r.url == b.url) = some b →
      b.url ∉ seen →
      (bms.map (fun x => x.guid)).Nodup →
      ("favicon_" ++ b.guid ++ ".png", blob) ∈
        (processBookmarks env loc fav bms seen dir).dir := by
  intro bms
  induction bms with
  | nil => intro seen dir _ hfind _ _; simp at hfind
  | cons c rest ih =>
    intro seen dir hraised hfind hseen hnodup
    have hnodup' : (rest.map (fun x => x.guid)).Nodup :=
      (List.nodup_cons.mp (by simpa using hnodup)).2
    by_cases hc : (c.url == b.url) = true
    · rw [List.find?_cons_of_pos _ (by simp [hc])] at hfind
      have hcb : c = b := by simpa using hfind
      subst hcb
      have hmem : c.url ∉ seen := hseen
      have htr : pyTruthyBytes (fav c.url_hash) = true := by
        rw [hfav]; simpa [pyTruthyBytes] using hbl
      by_cases hwf : env.writeFails ("favicon_" ++ c.guid ++ ".png") = true
      · rw [pb_wfail env loc fav c rest seen dir hmem htr hwf] at hraised
        simp at hraised
      · rw [pb_write env loc fav c rest seen dir hmem htr hwf]
        have hguid : c.guid ∉ rest.map (fun x => x.guid) :=
          (List.nodup_cons.mp (by simpa using hnodup)).1
        refine pb_dir_preserve env loc fav rest (c.url :: seen) _ _ blob ?_ ?_
        · rw [hfav]
          simpa using mem_setEntry_self dir ("favicon_" ++ c.guid ++ ".png") blob
        · intro x hx hne
          exact hguid (List.mem_map.mpr ⟨x, hx, favicon_name_inj _ _ hne⟩)
    · rw [List.find?_cons_of_neg _ (by simp [hc])] at hfind
      have hcb : c.url ≠ b.url := by simpa using hc
      by_cases hmem : c.url ∈ seen
      · rw [pb_skip env loc fav c rest seen dir hmem] at hraised ⊢
        exact ih seen dir hraised hfind hseen hnodup'
      · have hseen' : b.url ∉ c.url :: seen := by
          intro hx
          rcases List.mem_cons.mp hx with h1 | h1
          · exact hcb h1.symm
          · exact hseen h1
        by_cases htr : pyTruthyBytes (fav c.url_hash) = true
        · by_cases hwf : env.writeFails ("favicon_" ++ c.guid ++ ".png") = true
          · rw [pb_wfail env loc fav c rest seen dir hmem htr hwf] at hraised
            simp at hraised
          · rw [pb_write env loc fav c rest seen dir hmem htr hwf] at hraised ⊢
            exact ih (c.url :: seen) _ hraised hfind hseen' hnodup'
        · rw [pb_nofav env loc fav c rest seen dir hmem htr] at hraised ⊢
          exact ih (c.url :: seen) dir hraised hfind hseen' hnodup'

/-! ## History-loop invariants -/

theorem ph_items_fresh :
    ∀ (hs : List HistoryRecord) (seen : List String),
      ∀ it ∈ (processHistory hs seen).2, it.item.subtext ∉ seen := by
  intro hs
  induction hs with
  | nil => intro seen it hit; rw [ph_nil] at hit; simp at hit
  | cons h rest ih =>
    intro seen it hit
    by_cases hmem : h.url ∈ seen
    · rw [ph_skip h rest seen hmem] at hit
      exact ih seen it hit
    · rw [ph_cons h rest seen hmem] at hit
      rcases List.mem_cons.mp hit with h1 | h1
      · rw [h1, historyIndexItem_subtext]; exact hmem
      · intro hc
        exact ih (h.url :: seen) it h1 (List.mem_cons_of_mem _ hc)

theorem ph_items_nodup :
    ∀ (hs : List HistoryRecord) (seen : List String),
      ((processHistory hs seen).2.map (fun it => it.item.subtext)).Nodup := by
  intro hs
  induction hs with
  | nil => intro seen; rw [ph_nil]; simp
  | cons h rest ih =>
    intro seen
    by_cases hmem : h.url ∈ seen
    · rw [ph_skip h rest seen hmem]; exact ih seen
    · rw [ph_cons h rest seen hmem]
      simp only [List.map_cons, List.nodup_cons, historyIndexItem_subtext]
      refine ⟨?_, ih (h.url :: seen)⟩
      intro hc
      rcases List.mem_map.mp hc with ⟨it, hit, hsub⟩
      exact ph_items_fresh rest (h.url :: seen) it hit
        (hsub ▸ List.mem_cons_self h.url seen)

theorem ph_items_provenance :
    ∀ (hs : List HistoryRecord) (seen : List String),
      ∀ it ∈ (processHistory hs seen).2,
        ∃ h ∈ hs, it = historyIndexItem h := by
  intro hs
  induction hs with
  | nil => intro seen it hit; rw [ph_nil] at hit; simp at hit
  | cons h rest ih =>
    intro seen it hit
    by_cases hmem : h.url ∈ seen
    · rw [ph_skip h rest seen hmem] at hit
      rcases ih seen it hit with ⟨x, hx, heq⟩
      exact ⟨x, List.mem_cons_of_mem h hx, heq⟩
    · rw [ph_cons h rest seen hmem] at hit
      rcases List.mem_cons.mp hit with h1 | h1
      · exact ⟨h, List.mem_cons_self h rest, h1⟩
      · rcases ih (h.url :: seen) it h1 with ⟨x, hx, heq⟩
        exact ⟨x, List.mem_cons_of_mem h hx, heq⟩

/-! ## Task-level case analysis -/

theorem task_cases (inp : TaskInput) (env : FsEnv) (loc : String) (fs0 : Dir) :
    ((update_index_items_task inp env loc fs0).raised = true ∧
      (update_index_items_task inp env loc fs0).published = none) ∨
    ((clearLoop env.unlinkFails fs0).1 = none ∧
      (taskOut inp env loc).raised = false ∧
      (update_index_items_task inp env loc fs0).raised = false ∧
      (update_index_items_task inp env loc fs0).fs = (taskOut inp env loc).dir ∧
      (update_index_items_task inp env loc fs0).published =
        some ((taskOut inp env loc).items ++
          (if inp.index_history then
            (processHistory (taskHistory inp) (taskOut inp env loc).seen).2
           else []))) := by
  unfold update_index_items_task
  split
  · exact Or.inl ⟨rfl, rfl⟩
  rename_i bs hgb
  have hb : taskBookmarks inp = bs := by simp [taskBookmarks, hgb]
  split
  · exact Or.inl ⟨rfl, rfl⟩
  rename_i dir1 hcl
  have hdir1 : dir1 = [] := by
    have h2 := clearLoop_fst_none env.unlinkFails fs0 (by rw [hcl])
    rw [hcl] at h2
    exact h2
  subst hdir1
  split
  · exact Or.inl ⟨rfl, rfl⟩
  rename_i favs hgf
  have hf : taskFavicons inp = favs := by simp [taskFavicons, hgf]
  have hout : taskOut inp env loc = processBookmarks env loc favs bs [] [] := by
    rw [taskOut, hb, hf]
  split
  · exact Or.inl ⟨rfl, rfl⟩
  rename_i hraised
  rw [Bool.not_eq_true] at hraised
  split
  · rename_i hih
    split
    · exact Or.inl ⟨rfl, rfl⟩
    rename_i hist hgh
    have hh : taskHistory inp = hist := by simp [taskHistory, hgh]
    refine Or.inr ⟨by rw [hcl], by rw [hout]; exact hraised, rfl,
      by rw [hout], ?_⟩
    rw [hout, hh]
  · rename_i hih
    rw [Bool.not_eq_true] at hih
    refine Or.inr ⟨by rw [hcl], by rw [hout]; exact hraised, rfl,
      by rw [hout], ?_⟩
    rw [hout, List.append_nil]

theorem task_pub_spec (inp : TaskInput) (env : FsEnv) (loc : String)
    (fs0 : Dir) (items : List IndexItem)
    (hpub : (update_index_items_task inp env loc fs0).published = some items) :
    (taskOut inp env loc).raised = false ∧
    (update_index_items_task inp env loc fs0).raised = false ∧
    (update_index_items_task inp env loc fs0).fs = (taskOut inp env loc).dir ∧
    items = (taskOut inp env loc).items ++
      (if inp.index_history then
        (processHistory (taskHistory inp) (taskOut inp env loc).seen).2
       else []) := by
  rcases task_cases inp env loc fs0 with ⟨_, hnone⟩ | ⟨_, h1, h2, h3, h4⟩
  · rw [hnone] at hpub; simp at hpub
  · rw [h4] at hpub
    exact ⟨h1, h2, h3, (Option.some.inj hpub).symm⟩

theorem task_ok_spec (inp : TaskInput) (env : FsEnv) (loc : String) (fs0 : Dir)
    (hok : (update_index_items_task inp env loc fs0).raised = false) :
    (taskOut inp env loc).raised = false ∧
    (update_index_items_task inp env loc fs0).fs = (taskOut inp env loc).dir := by
  rcases task_cases inp env loc fs0 with ⟨htrue, _⟩ | ⟨_, h1, _, h3, _⟩
  · rw [htrue] at hok; simp at hok
  · exact ⟨h1, h3⟩

/-! ## Claim C1: URL uniqueness, bookmarks win -/

/-- C1: in any one rebuild that publishes, the published item URLs are
pairwise distinct (duplicate-URL records are silently skipped), and any
published item whose URL is also the URL of some bookmark row is exactly the
item built from the first bookmark row carrying that URL — so on a
bookmark/history collision the bookmark version wins. -/
theorem url_unique_bookmark_wins (inp : TaskInput) (env : FsEnv) (loc : String)
    (fs0 : Dir) (items : List IndexItem)
    (hpub : (update_index_items_task inp env loc fs0).published = some items) :
    (items.map (fun it => it.item.subtext)).Nodup ∧
    ∀ it ∈ items, ∀ brec ∈ taskBookmarks inp, brec.url = it.item.subtext →
      ∃ b, (taskBookmarks inp).find? (fun r => r.url == it.item.subtext) =
          some b ∧
        it = bookmarkIndexItem loc (taskFavicons inp) b := by
  rcases task_pub_spec inp env loc fs0 items hpub with ⟨hr, _, _, hitems⟩
  have hr' : (processBookmarks env loc (taskFavicons inp) (taskBookmarks inp)
      [] []).raised = false := hr
  by_cases hih : inp.index_history = true
  · rw [if_pos hih] at hitems
    subst hitems
    constructor
    · rw [List.map_append]
      rw [List.nodup_append]
      refine ⟨pb_items_nodup env loc (taskFavicons inp) (taskBookmarks inp) [] [],
        ph_items_nodup (taskHistory inp) _, ?_⟩
      intro a ha1 ha2
      rcases List.mem_map.mp ha1 with ⟨it1, hit1, hsub1⟩
      rcases List.mem_map.mp ha2 with ⟨it2, hit2, hsub2⟩
      have hin := pb_items_mem_seen env loc (taskFavicons inp)
        (taskBookmarks inp) [] [] it1 hit1
      have hfr := ph_items_fresh (taskHistory inp) _ it2 hit2
      rw [hsub2, ← hsub1] at hfr
      exact hfr hin
    · intro it hit brec hbrec hurl
      rcases List.mem_append.mp hit with h1 | h1
      · exact pb_items_provenance env loc (taskFavicons inp)
          (taskBookmarks inp) [] [] it h1
      · exfalso
        have hin := pb_url_mem_seen env loc (taskFavicons inp)
          (taskBookmarks inp) [] [] hr' brec hbrec
        have hfr := ph_items_fresh (taskHistory inp) _ it h1
        rw [← hurl] at hfr
        exact hfr hin
  · rw [if_neg hih, List.append_nil] at hitems
    subst hitems
    refine ⟨pb_items_nodup env loc (taskFavicons inp) (taskBookmarks inp) [] [],
      ?_⟩
    intro it hit brec hbrec hurl
    exact pb_items_provenance env loc (taskFavicons inp)
      (taskBookmarks inp) [] [] it hit

/-- Witness for C1 at the worked example of the spec: one bookmark and one
history row share the URL; the rebuild publishes a single item, built from
the bookmark. -/
theorem url_unique_bookmark_wins_witness :
    ((publishedItems (update_index_items_task
        ⟨true, true, .rows [⟨"b1", some "Example", "https://ex.com", 42⟩],
          .rows [⟨"h1", some "", "https://ex.com"⟩], .rows [], true⟩
        ⟨fun _ => false, fun _ => false⟩ "L" [])).map
      (fun it => it.item.subtext)).Nodup ∧
    ∃ b, (taskBookmarks
        ⟨true, true, .rows [⟨"b1", some "Example", "https://ex.com", 42⟩],
          .rows [⟨"h1", some "", "https://ex.com"⟩], .rows [], true⟩).find?
          (fun r => r.url == "https://ex.com") = some b ∧
      (publishedItems (update_index_items_task
        ⟨true, true, .rows [⟨"b1", some "Example", "https://ex.com", 42⟩],
          .rows [⟨"h1", some "", "https://ex.com"⟩], .rows [], true⟩
        ⟨fun _ => false, fun _ => false⟩ "L" [])).head? =
        some (bookmarkIndexItem "L" (taskFavicons
          ⟨true, true, .rows [⟨"b1", some "Example", "https://ex.com", 42⟩],
            .rows [⟨"h1", some "", "https://ex.com"⟩], .rows [], true⟩) b) := by
  have h := url_unique_bookmark_wins
    ⟨true, true, .rows [⟨"b1", some "Example", "https://ex.com", 42⟩],
      .rows [⟨"h1", some "", "https://ex.com"⟩], .rows [], true⟩
    ⟨fun _ => false, fun _ => false⟩ "L" []
    (publishedItems (update_index_items_task
      ⟨true, true, .rows [⟨"b1", some "Example", "https://ex.com", 42⟩],
        .rows [⟨"h1", some "", "https://ex.com"⟩], .rows [], true⟩
      ⟨fun _ => false, fun _ => false⟩ "L" [])) (by decide)
  refine ⟨h.1, ?_⟩
  rcases h.2 (bookmarkIndexItem "L" (taskFavicons
      ⟨true, true, .rows [⟨"b1", some "Example", "https://ex.com", 42⟩],
        .rows [⟨"h1", some "", "https://ex.com"⟩], .rows [], true⟩)
      ⟨"b1", some "Example", "https://ex.com", 42⟩)
    (by decide) ⟨"b1", some "Example", "https://ex.com", 42⟩ (by decide)
    (by decide) with ⟨b, hfind, heq⟩
  exact ⟨b, hfind, by rw [← heq]; decide⟩

/-! ## Claim C3: the searchable string -/

/-- C3 counterexample: for a bookmark whose title is NULL, the f-string
interpolates the text "None", so the searchable string is "none http://x",
not the claimed space-then-lowercased-URL " http://x". -/
theorem searchable_null_title_counterexample :
    (publishedItems (update_index_items_task
        ⟨true, true, .rows [⟨"b1", none, "HTTP://X", 0⟩], .rows [], .rows [],
          false⟩ ⟨fun _ => false, fun _ => false⟩ "L" [])).map
      (fun it => it.string) = ["none http://x"] ∧
    pyLower ("" ++ " " ++ "HTTP://X") = " http://x" ∧
    ("none http://x" : String) ≠ " http://x" :=
  ⟨by decide, by decide, by decide⟩

/-- C3 (amended): every published item's searchable string is the lowercase
of titleText ++ " " ++ url for its source record, where a present title —
even the empty string, which yields a leading space before the URL — is used
as-is, and a NULL title renders as the literal text "None". -/
theorem searchable_string_amended (inp : TaskInput) (env : FsEnv)
    (loc : String) (fs0 : Dir) :
    ∀ it ∈ publishedItems (update_index_items_task inp env loc fs0),
      ∃ t u, it.item.subtext = u ∧
        it.string = pyLower (pyStrOpt t ++ " " ++ u) ∧
        (∀ s, t = some s → it.string = pyLower (s ++ " " ++ u)) ∧
        ((∃ b ∈ taskBookmarks inp, b.title = t ∧ b.url = u) ∨
         (∃ h ∈ taskHistory inp, h.title = t ∧ h.url = u)) := by
  intro it hit
  cases hpub : (update_index_items_task inp env loc fs0).published with
  | none => rw [publishedItems, hpub] at hit; simp at hit
  | some items =>
    rw [publishedItems, hpub] at hit
    simp only [Option.getD_some] at hit
    rcases task_pub_spec inp env loc fs0 items hpub with ⟨hr, _, _, hitems⟩
    subst hitems
    rcases List.mem_append.mp hit with h1 | h1
    · rcases pb_items_provenance env loc (taskFavicons inp)
        (taskBookmarks inp) [] [] it h1 with ⟨b, hfind, heq⟩
      refine ⟨b.title, b.url, by rw [heq]; rfl, by rw [heq]; rfl, ?_, ?_⟩
      · intro s hs
        rw [heq]
        show searchableString b.title b.url = pyLower (s ++ " " ++ b.url)
        rw [hs]
        rfl
      · exact Or.inl ⟨b, List.mem_of_find?_eq_some hfind, rfl, rfl⟩
    · by_cases hih : inp.index_history = true
      · rw [if_pos hih] at h1
        rcases ph_items_provenance (taskHistory inp) _ it h1 with ⟨h, hh, heq⟩
        refine ⟨h.title, h.url, by rw [heq]; rfl, by rw [heq]; rfl, ?_, ?_⟩
        · intro s hs
          rw [heq]
          show searchableString h.title h.url = pyLower (s ++ " " ++ h.url)
          rw [hs]
          rfl
        · exact Or.inr ⟨h, hh, rfl, rfl⟩
      · rw [if_neg hih] at h1
        simp at h1

/-- Witness for the amended C3: a bookmark with an empty title yields the
searchable string " http://a" (leading space then the lowercased URL). -/
theorem searchable_string_amended_witness :
    ∃ t u,
      (IndexItem.mk
        ⟨"b1", "http://a", "http://a",
          ["file:" ++ firefox_bookmark_icon, "xdg:firefox"],
          itemActions "http://a"⟩ " http://a").item.subtext = u ∧
      (IndexItem.mk
        ⟨"b1", "http://a", "http://a",
          ["file:" ++ firefox_bookmark_icon, "xdg:firefox"],
          itemActions "http://a"⟩ " http://a").string =
        pyLower (pyStrOpt t ++ " " ++ u) ∧
      (∀ s, t = some s →
        (IndexItem.mk
          ⟨"b1", "http://a", "http://a",
            ["file:" ++ firefox_bookmark_icon, "xdg:firefox"],
            itemActions "http://a"⟩ " http://a").string =
          pyLower (s ++ " " ++ u)) ∧
      ((∃ b ∈ taskBookmarks
          ⟨true, true, .rows [⟨"b1", some "", "http://a", 0⟩], .rows [],
            .rows [], false⟩, b.title = t ∧ b.url = u) ∨
       (∃ h ∈ taskHistory
          ⟨true, true, .rows [⟨"b1", some "", "http://a", 0⟩], .rows [],
            .rows [], false⟩, h.title = t ∧ h.url = u)) :=
  searchable_string_amended
    ⟨true, true, .rows [⟨"b1", some "", "http://a", 0⟩], .rows [], .rows [],
      false⟩ ⟨fun _ => false, fun _ => false⟩ "L" []
    (IndexItem.mk
      ⟨"b1", "http://a", "http://a",
        ["file:" ++ firefox_bookmark_icon, "xdg:firefox"],
        itemActions "http://a"⟩ " http://a") (by decide)

/-! ## Claim C4: the favicon directory versus completed rebuilds -/

/-- C4 counterexample: a rebuild that raises mid-way (the second favicon
write fails) has already deleted the previous rebuild's icon file and has
written one new file, so the directory matches no completed rebuild. -/
theorem icons_after_raise_counterexample :
    (update_index_items_task
        ⟨true, true,
          .rows [⟨"b1", some "A", "u1", 1⟩, ⟨"b2", some "B", "u2", 2⟩],
          .rows [], .rows [(1, [1]), (2, [2])], false⟩
        ⟨fun _ => false, fun n => n == "favicon_b2.png"⟩ "L"
        [("favicon_old.png", [9])]).raised = true ∧
    (update_index_items_task
        ⟨true, true,
          .rows [⟨"b1", some "A", "u1", 1⟩, ⟨"b2", some "B", "u2", 2⟩],
          .rows [], .rows [(1, [1]), (2, [2])], false⟩
        ⟨fun _ => false, fun n => n == "favicon_b2.png"⟩ "L"
        [("favicon_old.png", [9])]).published = none ∧
    (update_index_items_task
        ⟨true, true,
          .rows [⟨"b1", some "A", "u1", 1⟩, ⟨"b2", some "B", "u2", 2⟩],
          .rows [], .rows [(1, [1]), (2, [2])], false⟩
        ⟨fun _ => false, fun n => n == "favicon_b2.png"⟩ "L"
        [("favicon_old.png", [9])]).fs = [("favicon_b1.png", [1])] ∧
    [(("favicon_b1.png" : String), ([1] : Bytes))] ≠
      [("favicon_old.png", [9])] :=
  ⟨by decide, by decide, by decide, by decide⟩

/-- C4 (amended): a rebuild clears the directory before writing, and after a
rebuild that runs to completion every file in the favicons directory was
written by that rebuild — named from a bookmark row's guid, bytes equal to
that row's non-empty favicon blob — so nothing from before the rebuild
survives; a rebuild that raises mid-way may instead leave a partial set. -/
theorem icons_of_completed_rebuild (inp : TaskInput) (env : FsEnv)
    (loc : String) (fs0 : Dir)
    (hok : (update_index_items_task inp env loc fs0).raised = false) :
    ∀ e ∈ (update_index_items_task inp env loc fs0).fs,
      ∃ x ∈ taskBookmarks inp, e.1 = "favicon_" ++ x.guid ++ ".png" ∧
        taskFavicons inp x.url_hash = some e.2 ∧ e.2 ≠ [] := by
  rcases task_ok_spec inp env loc fs0 hok with ⟨_, hfs⟩
  intro e he
  rw [hfs] at he
  rcases pb_dir_chars env loc (taskFavicons inp) (taskBookmarks inp) [] []
    e he with h1 | h1
  · simp at h1
  · exact h1

/-- Witness for the amended C4: after a completed rebuild with one favicon,
the single file on disk traces back to the bookmark that produced it. -/
theorem icons_of_completed_rebuild_witness :
    ∃ x ∈ taskBookmarks
        ⟨true, true, .rows [⟨"b1", some "T", "http://a", 7⟩], .rows [],
          .rows [(7, [3, 4])], false⟩,
      (("favicon_b1.png" : String), ([3, 4] : Bytes)).1 =
        "favicon_" ++ x.guid ++ ".png" ∧
      taskFavicons
          ⟨true, true, .rows [⟨"b1", some "T", "http://a", 7⟩], .rows [],
            .rows [(7, [3, 4])], false⟩ x.url_hash =
        some (("favicon_b1.png" : String), ([3, 4] : Bytes)).2 ∧
      (("favicon_b1.png" : String), ([3, 4] : Bytes)).2 ≠ [] :=
  icons_of_completed_rebuild
    ⟨true, true, .rows [⟨"b1", some "T", "http://a", 7⟩], .rows [],
      .rows [(7, [3, 4])], false⟩
    ⟨fun _ => false, fun _ => false⟩ "L" [] (by decide)
    ("favicon_b1.png", [3, 4]) (by decide)

/-! ## Claim C5: favicon materialization round-trip -/

/-- C5 counterexample: an empty blob matching the bookmark's url_hash is in
the favicon mapping, yet no file is written (Python bytes truthiness) and
the item falls back to the bundled icon pair. -/
theorem favicon_empty_blob_counterexample :
    taskFavicons
        ⟨true, true, .rows [⟨"b1", some "T", "http://a", 7⟩], .rows [],
          .rows [(7, [])], false⟩ 7 = some [] ∧
    (update_index_items_task
        ⟨true, true, .rows [⟨"b1", some "T", "http://a", 7⟩], .rows [],
          .rows [(7, [])], false⟩
        ⟨fun _ => false, fun _ => false⟩ "L" []).fs = [] ∧
    (publishedItems (update_index_items_task
        ⟨true, true, .rows [⟨"b1", some "T", "http://a", 7⟩], .rows [],
          .rows [(7, [])], false⟩
        ⟨fun _ => false, fun _ => false⟩ "L" [])).map
      (fun it => it.item.iconUrls) =
      [["file:" ++ firefox_bookmark_icon, "xdg:firefox"]] :=
  ⟨by decide, by decide, by decide⟩

/-- C5 (amended): for a bookmark row that is the first occurrence of its URL
(given distinct guids): if its url_hash maps to a non-empty blob, the file
favicon_guid.png with exactly the blob's bytes is on disk after the rebuild
and the item's icon references are the file reference first, the OS-theme
hint second; if the mapping has no blob, or an empty one, the item's icon
references are exactly the bundled fallback reference then the theme hint. -/
theorem favicon_roundtrip_amended (inp : TaskInput) (env : FsEnv)
    (loc : String) (fs0 : Dir) (items : List IndexItem) (b : BookmarkRecord)
    (hpub : (update_index_items_task inp env loc fs0).published = some items)
    (hnodup : ((taskBookmarks inp).map (fun x => x.guid)).Nodup)
    (hfirst : (taskBookmarks inp).find? (fun r => r.url == b.url) = some b) :
    (∀ blob, taskFavicons inp b.url_hash = some blob → blob ≠ [] →
      ("favicon_" ++ b.guid ++ ".png", blob) ∈
        (update_index_items_task inp env loc fs0).fs ∧
      ∃ it ∈ items, it.item.id = b.guid ∧
        it.item.iconUrls =
          ["file:" ++ loc ++ "/favicon_" ++ b.guid ++ ".png",
            "xdg:firefox"]) ∧
    (pyTruthyBytes (taskFavicons inp b.url_hash) = false →
      ∃ it ∈ items, it.item.id = b.guid ∧
        it.item.iconUrls = ["file:" ++ firefox_bookmark_icon,
          "xdg:firefox"]) := by
  rcases task_pub_spec inp env loc fs0 items hpub with ⟨hr, _, hfs, hitems⟩
  have hr' : (processBookmarks env loc (taskFavicons inp) (taskBookmarks inp)
      [] []).raised = false := hr
  have hmemitem : bookmarkIndexItem loc (taskFavicons inp) b ∈ items := by
    rw [hitems]
    exact List.mem_append_left _
      (pb_item_of_first env loc (taskFavicons inp) b (taskBookmarks inp)
        [] [] hr' hfirst (by simp))
  constructor
  · intro blob hblob hne
    constructor
    · rw [hfs]
      exact pb_file_of_first env loc (taskFavicons inp) b blob hblob hne
        (taskBookmarks inp) [] [] hr' hfirst (by simp) hnodup
    · refine ⟨bookmarkIndexItem loc (taskFavicons inp) b, hmemitem, rfl, ?_⟩
      show bookmarkIconUrls loc b.guid (taskFavicons inp b.url_hash) = _
      rw [hblob]
      rw [bookmarkIconUrls, if_pos (by simpa [pyTruthyBytes] using hne)]
  · intro hfalse
    refine ⟨bookmarkIndexItem loc (taskFavicons inp) b, hmemitem, rfl, ?_⟩
    show bookmarkIconUrls loc b.guid (taskFavicons inp b.url_hash) = _
    rw [bookmarkIconUrls, if_neg (by simp [hfalse])]

/-- Witness for the amended C5: one bookmark with a non-empty blob — the
file is on disk with the blob's bytes and the item references it first. -/
theorem favicon_roundtrip_amended_witness :
    ("favicon_" ++ "b1" ++ ".png", ([3, 4] : Bytes)) ∈
      (update_index_items_task
        ⟨true, true, .rows [⟨"b1", some "T", "http://a", 7⟩], .rows [],
          .rows [(7, [3, 4])], false⟩
        ⟨fun _ => false, fun _ => false⟩ "L" []).fs ∧
    ∃ it ∈ publishedItems (update_index_items_task
        ⟨true, true, .rows [⟨"b1", some "T", "http://a", 7⟩], .rows [],
          .rows [(7, [3, 4])], false⟩
        ⟨fun _ => false, fun _ => false⟩ "L" []),
      it.item.id = "b1" ∧
      it.item.iconUrls =
        ["file:" ++ "L" ++ "/favicon_" ++ "b1" ++ ".png", "xdg:firefox"] :=
  (favicon_roundtrip_amended
    ⟨true, true, .rows [⟨"b1", some "T", "http://a", 7⟩], .rows [],
      .rows [(7, [3, 4])], false⟩
    ⟨fun _ => false, fun _ => false⟩ "L" []
    (publishedItems (update_index_items_task
      ⟨true, true, .rows [⟨"b1", some "T", "http://a", 7⟩], .rows [],
        .rows [(7, [3, 4])], false⟩
      ⟨fun _ => false, fun _ => false⟩ "L" []))
    ⟨"b1", some "T", "http://a", 7⟩
    (by decide) (by decide) (by decide)).1 [3, 4] (by decide) (by decide)

/-! ## Claim C6: store-read error contract -/

/-- C6: each store read raises the not-found error exactly when the store
file is missing; with the file present no error escapes — a caught query
failure yields the empty list or empty mapping — and a rebuild over such
failed queries proceeds and publishes the empty item list instead of
aborting. -/
theorem store_read_error_contract (pe fe : Bool)
    (qb : QueryOutcome (List BookmarkRecord))
    (qh : QueryOutcome (List HistoryRecord))
    (qf : QueryOutcome (List (Nat × Bytes)))
    (inp : TaskInput) (env : FsEnv) (loc : String) (fs0 : Dir) :
    (get_bookmarks pe qb = .error .fileNotFound ↔ pe = false) ∧
    (get_history pe qh = .error .fileNotFound ↔ pe = false) ∧
    (get_favicons_data fe qf = .error .fileNotFound ↔ fe = false) ∧
    (get_bookmarks true .sqliteError = .ok []) ∧
    (get_history true .sqliteError = .ok []) ∧
    (get_favicons_data true .sqliteError = .ok (fun _ => none)) ∧
    (inp.placesExists = true → inp.faviconsExists = true →
      inp.bookmarksQuery = .sqliteError → inp.historyQuery = .sqliteError →
      inp.faviconsQuery = .sqliteError →
      (∀ e ∈ fs0, env.unlinkFails e.1 = false) →
      (update_index_items_task inp env loc fs0).raised = false ∧
      (update_index_items_task inp env loc fs0).published = some []) := by
  refine ⟨?_, ?_, ?_, rfl, rfl, rfl, ?_⟩
  · cases pe <;> cases qb <;> simp [get_bookmarks]
  · cases pe <;> cases qh <;> simp [get_history]
  · cases fe <;> cases qf <;> simp [get_favicons_data]
  · rcases inp with ⟨p1, p2, p3, p4, p5, ih⟩
    intro hpe hfe hqb hqh hqf hunlink
    simp only at hpe hfe hqb hqh hqf
    subst hpe; subst hfe; subst hqb; subst hqh; subst hqf
    have hcl := clearLoop_no_fail env.unlinkFails fs0 hunlink
    unfold update_index_items_task
    simp only [get_bookmarks, get_history, get_favicons_data, hcl]
    cases ih <;> simp [processBookmarks, processHistory]

/-- Witness for C6: a concrete rebuild over a present store whose queries
all fail publishes the empty list without raising. -/
theorem store_read_error_contract_witness :
    (update_index_items_task
        ⟨true, true, .sqliteError, .sqliteError, .sqliteError, true⟩
        ⟨fun _ => false, fun _ => false⟩ "L" [("a", [1])]).raised = false ∧
    (update_index_items_task
        ⟨true, true, .sqliteError, .sqliteError, .sqliteError, true⟩
        ⟨fun _ => false, fun _ => false⟩ "L" [("a", [1])]).published =
      some [] :=
  (store_read_error_contract true true .sqliteError .sqliteError .sqliteError
    ⟨true, true, .sqliteError, .sqliteError, .sqliteError, true⟩
    ⟨fun _ => false, fun _ => false⟩ "L"
    [("a", [1])]).2.2.2.2.2.2 rfl rfl rfl rfl rfl (by decide)

/-! ## Claim C7: clearing the icon directory -/

/-- C7 counterexample: with two icon files on disk and the first unlink
failing, the rebuild aborts: the second file is never deleted (it is still
on disk) and nothing is published — deletion is not best-effort per file. -/
theorem unlink_failure_counterexample :
    (update_index_items_task
        ⟨true, true, .rows [], .rows [], .rows [], false⟩
        ⟨fun n => n == "a", fun _ => false⟩ "L"
        [("a", [7]), ("b", [8])]).raised = true ∧
    (update_index_items_task
        ⟨true, true, .rows [], .rows [], .rows [], false⟩
        ⟨fun n => n == "a", fun _ => false⟩ "L"
        [("a", [7]), ("b", [8])]).published = none ∧
    (update_index_items_task
        ⟨true, true, .rows [], .rows [], .rows [], false⟩
        ⟨fun n => n == "a", fun _ => false⟩ "L"
        [("a", [7]), ("b", [8])]).fs = [("a", [7]), ("b", [8])] ∧
    (("b", [8]) : String × Bytes) ∈
      (update_index_items_task
        ⟨true, true, .rows [], .rows [], .rows [], false⟩
        ⟨fun n => n == "a", fun _ => false⟩ "L"
        [("a", [7]), ("b", [8])]).fs :=
  ⟨by decide, by decide, by decide, by decide⟩

/-- C7 (amended): clearing the icon directory is not best-effort — the first
failing unlink raises, aborting the deletion of every remaining file and the
whole rebuild: the failing file and all later files stay on disk, and
nothing is published. -/
theorem unlink_failure_aborts_rebuild (inp : TaskInput) (env : FsEnv)
    (loc : String) (pre post : Dir) (f : String) (b : Bytes)
    (hpe : inp.placesExists = true)
    (hpre : ∀ x ∈ pre, env.unlinkFails x.1 = false)
    (hf : env.unlinkFails f = true) :
    (update_index_items_task inp env loc (pre ++ (f, b) :: post)).raised =
      true ∧
    (update_index_items_task inp env loc (pre ++ (f, b) :: post)).published =
      none ∧
    (update_index_items_task inp env loc (pre ++ (f, b) :: post)).fs =
      (f, b) :: post := by
  have hcl := clearLoop_split env.unlinkFails pre post f b hpre hf
  have hgb : ∃ bs, get_bookmarks inp.placesExists inp.bookmarksQuery =
      .ok bs := by
    rw [hpe]
    cases inp.bookmarksQuery with
    | rows rs => exact ⟨rs, rfl⟩
    | sqliteError => exact ⟨[], rfl⟩
  rcases hgb with ⟨bs, hgb⟩
  unfold update_index_items_task
  split
  · rename_i e heq
    rw [hgb] at heq
    simp at heq
  · split
    · rename_i heq2
      rw [hcl] at heq2
      rcases Prod.mk.injEq .. ▸ heq2 with ⟨h1, h2⟩
      exact ⟨rfl, rfl, by rw [← h2]⟩
    · rename_i heq2
      rw [hcl] at heq2
      simp at heq2

/-- Witness for the amended C7: concrete directory with one healthy file
before the failing one; the failing file and the one after it survive. -/
theorem unlink_failure_aborts_rebuild_witness :
    (update_index_items_task
        ⟨true, true, .rows [], .rows [], .rows [], false⟩
        ⟨fun n => n == "boom", fun _ => false⟩ "L"
        ([("x", [1])] ++ ("boom", [5]) :: [("y", [2])])).raised = true ∧
    (update_index_items_task
        ⟨true, true, .rows [], .rows [], .rows [], false⟩
        ⟨fun n => n == "boom", fun _ => false⟩ "L"
        ([("x", [1])] ++ ("boom", [5]) :: [("y", [2])])).published = none ∧
    (update_index_items_task
        ⟨true, true, .rows [], .rows [], .rows [], false⟩
        ⟨fun n => n == "boom", fun _ => false⟩ "L"
        ([("x", [1])] ++ ("boom", [5]) :: [("y", [2])])).fs =
      ("boom", [5]) :: [("y", [2])] :=
  unlink_failure_aborts_rebuild
    ⟨true, true, .rows [], .rows [], .rows [], false⟩
    ⟨fun n => n == "boom", fun _ => false⟩ "L"
    [("x", [1])] [("y", [2])] "boom" [5] rfl (by decide) (by decide)

/-! ## Claim C8: profile discovery -/

/-- C8: an absent root or an unreadable/malformed registry yields the empty
profile list; otherwise the result is exactly the Path of every
Profile-prefixed section whose directory holds both store files, in registry
order (the filter-then-map reading of section 4.1 of the spec). -/
theorem list_profiles_contract (rootExists : Bool) (registry : Registry)
    (hasPlaces hasFavicons : String → Bool) :
    (rootExists = false →
      get_available_profiles rootExists registry hasPlaces hasFavicons =
        []) ∧
    (registry = .error () →
      get_available_profiles rootExists registry hasPlaces hasFavicons =
        []) ∧
    (∀ sections, rootExists = true → registry = .ok sections →
      get_available_profiles rootExists registry hasPlaces hasFavicons =
        list_profiles_spec hasPlaces hasFavicons sections) := by
  refine ⟨?_, ?_, ?_⟩
  · intro h
    unfold get_available_profiles
    rw [if_neg (by simp [h])]
  · intro h
    unfold get_available_profiles
    cases hroot : rootExists
    · rw [if_neg (by simp)]
    · rw [if_pos rfl, h]
  · intro sections hroot hreg
    unfold get_available_profiles
    rw [hroot, if_pos rfl, hreg]
    exact profilesLoop_eq_spec hasPlaces hasFavicons sections

/-- Witness for C8 at the spec's worked example: two Profile sections, only
the first has both store files, so exactly its path is returned. -/
theorem list_profiles_contract_witness :
    get_available_profiles true
        (.ok [⟨"Profile0", some "p0"⟩, ⟨"Profile1", some "p1"⟩])
        (fun p => p == "p0") (fun p => p == "p0") =
      list_profiles_spec (fun p => p == "p0") (fun p => p == "p0")
        [⟨"Profile0", some "p0"⟩, ⟨"Profile1", some "p1"⟩] ∧
    get_available_profiles true
        (.ok [⟨"Profile0", some "p0"⟩, ⟨"Profile1", some "p1"⟩])
        (fun p => p == "p0") (fun p => p == "p0") = ["p0"] :=
  ⟨(list_profiles_contract true
      (.ok [⟨"Profile0", some "p0"⟩, ⟨"Profile1", some "p1"⟩])
      (fun p => p == "p0") (fun p => p == "p0")).2.2
      [⟨"Profile0", some "p0"⟩, ⟨"Profile1", some "p1"⟩] rfl rfl,
    by decide⟩

/-! ## Claims C9 and C10: history gating and item actions -/

theorem task_reads_no_history (inp : TaskInput) (env : FsEnv) (loc : String)
    (fs0 : Dir) (hih : inp.index_history = false) :
    "history" ∉ (update_index_items_task inp env loc fs0).reads := by
  unfold update_index_items_task
  split
  · simp
  · split
    · simp
    · split
      · simp
      · split
        · simp
        · split
          · rename_i h
            rw [hih] at h
            simp at h
          · simp

theorem published_provenance (inp : TaskInput) (env : FsEnv) (loc : String)
    (fs0 : Dir) :
    ∀ it ∈ publishedItems (update_index_items_task inp env loc fs0),
      (∃ b, it = bookmarkIndexItem loc (taskFavicons inp) b) ∨
      (∃ h, it = historyIndexItem h) := by
  intro it hit
  cases hpub : (update_index_items_task inp env loc fs0).published with
  | none => rw [publishedItems, hpub] at hit; simp at hit
  | some items =>
    rw [publishedItems, hpub] at hit
    simp only [Option.getD_some] at hit
    rcases task_pub_spec inp env loc fs0 items hpub with ⟨_, _, _, hitems⟩
    subst hitems
    rcases List.mem_append.mp hit with h1 | h1
    · rcases pb_items_provenance env loc (taskFavicons inp)
        (taskBookmarks inp) [] [] it h1 with ⟨b, _, heq⟩
      exact Or.inl ⟨b, heq⟩
    · by_cases hih : inp.index_history = true
      · rw [if_pos hih] at h1
        rcases ph_items_provenance (taskHistory inp) _ it h1 with ⟨h, _, heq⟩
        exact Or.inr ⟨h, heq⟩
      · rw [if_neg hih] at h1
        simp at h1

/-- C9: with index_history false at execution time, the history query is
never executed and every published item is one built from a bookmark row —
no item of the published collection derives from a history record. -/
theorem history_disabled_no_history_items (inp : TaskInput) (env : FsEnv)
    (loc : String) (fs0 : Dir) (hih : inp.index_history = false) :
    "history" ∉ (update_index_items_task inp env loc fs0).reads ∧
    ∀ it ∈ publishedItems (update_index_items_task inp env loc fs0),
      ∃ b ∈ taskBookmarks inp,
        it = bookmarkIndexItem loc (taskFavicons inp) b := by
  refine ⟨task_reads_no_history inp env loc fs0 hih, ?_⟩
  intro it hit
  cases hpub : (update_index_items_task inp env loc fs0).published with
  | none => rw [publishedItems, hpub] at hit; simp at hit
  | some items =>
    rw [publishedItems, hpub] at hit
    simp only [Option.getD_some] at hit
    rcases task_pub_spec inp env loc fs0 items hpub with ⟨_, _, _, hitems⟩
    rw [hitems, if_neg (by simp [hih]), List.append_nil] at hit
    rcases pb_items_provenance env loc (taskFavicons inp)
      (taskBookmarks inp) [] [] it hit with ⟨b, hfind, heq⟩
    exact ⟨b, List.mem_of_find?_eq_some hfind, heq⟩

/-- Witness for C9: a rebuild with a populated history store but the flag
off reads no history and publishes only the bookmark-derived item. -/
theorem history_disabled_no_history_items_witness :
    ("history" ∉ (update_index_items_task
        ⟨true, true, .rows [⟨"b1", some "T", "u", 0⟩],
          .rows [⟨"h1", some "H", "v"⟩], .rows [], false⟩
        ⟨fun _ => false, fun _ => false⟩ "L" []).reads) ∧
    ∃ b ∈ taskBookmarks
        ⟨true, true, .rows [⟨"b1", some "T", "u", 0⟩],
          .rows [⟨"h1", some "H", "v"⟩], .rows [], false⟩,
      bookmarkIndexItem "L" (taskFavicons
          ⟨true, true, .rows [⟨"b1", some "T", "u", 0⟩],
            .rows [⟨"h1", some "H", "v"⟩], .rows [], false⟩)
          ⟨"b1", some "T", "u", 0⟩ =
        bookmarkIndexItem "L" (taskFavicons
          ⟨true, true, .rows [⟨"b1", some "T", "u", 0⟩],
            .rows [⟨"h1", some "H", "v"⟩], .rows [], false⟩) b :=
  ⟨(history_disabled_no_history_items
      ⟨true, true, .rows [⟨"b1", some "T", "u", 0⟩],
        .rows [⟨"h1", some "H", "v"⟩], .rows [], false⟩
      ⟨fun _ => false, fun _ => false⟩ "L" [] rfl).1,
    (history_disabled_no_history_items
      ⟨true, true, .rows [⟨"b1", some "T", "u", 0⟩],
        .rows [⟨"h1", some "H", "v"⟩], .rows [], false⟩
      ⟨fun _ => false, fun _ => false⟩ "L" [] rfl).2
      (bookmarkIndexItem "L" (taskFavicons
        ⟨true, true, .rows [⟨"b1", some "T", "u", 0⟩],
          .rows [⟨"h1", some "H", "v"⟩], .rows [], false⟩)
        ⟨"b1", some "T", "u", 0⟩) (by decide)⟩

/-- C10: every published item carries exactly the two actions — open in
browser and copy URL, in that order — and each action's captured URL is the
item's own URL (bound at construction), so two items share an action list
only when their URLs are equal. -/
theorem items_two_value_bound_actions (inp : TaskInput) (env : FsEnv)
    (loc : String) (fs0 : Dir) :
    (∀ it ∈ publishedItems (update_index_items_task inp env loc fs0),
      it.item.actions =
        [⟨"open", "Open in Firefox", .openUrl it.item.subtext⟩,
         ⟨"copy", "Copy URL", .setClipboardText it.item.subtext⟩]) ∧
    (∀ it1 ∈ publishedItems (update_index_items_task inp env loc fs0),
      ∀ it2 ∈ publishedItems (update_index_items_task inp env loc fs0),
        it1.item.actions = it2.item.actions →
          it1.item.subtext = it2.item.subtext) := by
  have hact : ∀ it ∈ publishedItems (update_index_items_task inp env loc fs0),
      it.item.actions =
        [⟨"open", "Open in Firefox", .openUrl it.item.subtext⟩,
         ⟨"copy", "Copy URL", .setClipboardText it.item.subtext⟩] := by
    intro it hit
    rcases published_provenance inp env loc fs0 it hit with ⟨b, heq⟩ | ⟨h, heq⟩
    · rw [heq]; rfl
    · rw [heq]; rfl
  refine ⟨hact, ?_⟩
  intro it1 h1 it2 h2 heq
  have e1 := hact it1 h1
  have e2 := hact it2 h2
  rw [e1, e2] at heq
  simpa using heq

/-- Witness for C10: the single published item of a one-bookmark rebuild
carries exactly the open and copy actions, bound to its own URL. -/
theorem items_two_value_bound_actions_witness :
    (bookmarkIndexItem "L" (taskFavicons
        ⟨true, true, .rows [⟨"b1", some "T", "u", 0⟩], .rows [], .rows [],
          false⟩) ⟨"b1", some "T", "u", 0⟩).item.actions =
      [⟨"open", "Open in Firefox", .openUrl (bookmarkIndexItem "L"
          (taskFavicons ⟨true, true, .rows [⟨"b1", some "T", "u", 0⟩],
            .rows [], .rows [], false⟩)
          ⟨"b1", some "T", "u", 0⟩).item.subtext⟩,
       ⟨"copy", "Copy URL", .setClipboardText (bookmarkIndexItem "L"
          (taskFavicons ⟨true, true, .rows [⟨"b1", some "T", "u", 0⟩],
            .rows [], .rows [], false⟩)
          ⟨"b1", some "T", "u", 0⟩).item.subtext⟩] :=
  (items_two_value_bound_actions
    ⟨true, true, .rows [⟨"b1", some "T", "u", 0⟩], .rows [], .rows [], false⟩
    ⟨fun _ => false, fun _ => false⟩ "L" []).1
    (bookmarkIndexItem "L" (taskFavicons
      ⟨true, true, .rows [⟨"b1", some "T", "u", 0⟩], .rows [], .rows [],
        false⟩) ⟨"b1", some "T", "u", 0⟩) (by decide)

/-! ## Claim C2: rebuild serialization

The coordinator (Plugin.updateIndexItems) keeps one thread slot: a trigger
joins the alive thread before starting a new one.  We model the observable
schedule on a logical clock: each executed rebuild occupies an interval
(start, finish); a trigger while one is running first completes the running
rebuild (the join returns only once it has finished), then starts one new
rebuild at a strictly later time. -/

inductive CEvent where
  | trigger
  | finishRunning
  deriving DecidableEq

/-- Coordinator state: the clock, the start time of the running rebuild
thread when one is alive, the (start, finish) intervals of the rebuilds that
have finished, in completion order, and how many rebuilds were started. -/
structure Coord where
  now : Nat
  running : Option Nat
  completed : List (Nat × Nat)
  started : Nat
  deriving DecidableEq

def Coord.init : Coord := ⟨0, none, [], 0⟩

/-- updateIndexItems: when the rebuild thread is alive, join it — it
finishes before the call proceeds — then start exactly one new rebuild. -/
def updateIndexItems (s : Coord) : Coord :=
  match s.running with
  | some st =>
    ⟨s.now + 2, some (s.now + 1), s.completed ++ [(st, s.now)], s.started + 1⟩
  | none => ⟨s.now + 1, some s.now, s.completed, s.started + 1⟩

/-- The running rebuild thread finishing on its own. -/
def finishRunning (s : Coord) : Coord :=
  match s.running with
  | some st => ⟨s.now + 1, none, s.completed ++ [(st, s.now)], s.started⟩
  | none => ⟨s.now + 1, none, s.completed, s.started⟩

def cstep (s : Coord) : CEvent → Coord
  | .trigger => updateIndexItems s
  | .finishRunning => finishRunning s

def runFrom (s : Coord) : List CEvent → Coord
  | [] => s
  | e :: rest => runFrom (cstep s e) rest

def coordRun (evs : List CEvent) : Coord := runFrom Coord.init evs

def countTriggers : List CEvent → Nat
  | [] => 0
  | .trigger :: rest => countTriggers rest + 1
  | .finishRunning :: rest => countTriggers rest

/-- The serialization invariant: finished rebuilds occupy pairwise-disjoint
ordered intervals, every finish is in the past, the running rebuild started
after every finished one, and the number of started rebuilds is the number
of finished ones plus one for the running one. -/
def CoordInv (s : Coord) : Prop :=
  s.completed.Pairwise (fun a b => a.2 < b.1) ∧
  (∀ p ∈ s.completed, p.1 ≤ p.2 ∧ p.2 < s.now) ∧
  (∀ st, s.running = some st → st ≤ s.now ∧ ∀ p ∈ s.completed, p.2 < st) ∧
  s.started = s.completed.length + (if s.running.isSome then 1 else 0)

theorem updateIndexItems_some (s : Coord) (st : Nat)
    (h : s.running = some st) :
    updateIndexItems s =
      ⟨s.now + 2, some (s.now + 1), s.completed ++ [(st, s.now)],
        s.started + 1⟩ := by
  unfold updateIndexItems
  rw [h]

theorem updateIndexItems_none (s : Coord) (h : s.running = none) :
    updateIndexItems s =
      ⟨s.now + 1, some s.now, s.completed, s.started + 1⟩ := by
  unfold updateIndexItems
  rw [h]

theorem finishRunning_some (s : Coord) (st : Nat) (h : s.running = some st) :
    finishRunning s =
      ⟨s.now + 1, none, s.completed ++ [(st, s.now)], s.started⟩ := by
  unfold finishRunning
  rw [h]

theorem finishRunning_none (s : Coord) (h : s.running = none) :
    finishRunning s = ⟨s.now + 1, none, s.completed, s.started⟩ := by
  unfold finishRunning
  rw [h]

theorem cstep_inv (s : Coord) (e : CEvent) (h : CoordInv s) :
    CoordInv (cstep s e) := by
  rcases h with ⟨hpair, hbound, hrun, hcount⟩
  cases e with
  | trigger =>
    show CoordInv (updateIndexItems s)
    cases hr : s.running with
    | some st =>
      rw [updateIndexItems_some s st hr]
      rcases hrun st hr with ⟨hst, hafter⟩
      rw [hr] at hcount
      simp only [Option.isSome_some, if_true] at hcount
      refine ⟨?_, ?_, ?_, ?_⟩
      · show (s.completed ++ [(st, s.now)]).Pairwise (fun a b => a.2 < b.1)
        rw [List.pairwise_append]
        exact ⟨hpair, List.pairwise_singleton _ _,
          fun a ha b hb => by
            rcases List.mem_singleton.mp hb with rfl
            exact hafter a ha⟩
      · intro p hp
        show p.1 ≤ p.2 ∧ p.2 < s.now + 2
        rcases List.mem_append.mp hp with h1 | h1
        · exact ⟨(hbound p h1).1, by have := (hbound p h1).2; omega⟩
        · rcases List.mem_singleton.mp h1 with rfl
          exact ⟨hst, by omega⟩
      · intro st2 hst2
        have hst2' : s.now + 1 = st2 := by simpa using hst2
        refine ⟨by show st2 ≤ s.now + 2; omega, ?_⟩
        intro p hp
        show p.2 < st2
        rcases List.mem_append.mp hp with h1 | h1
        · have := (hbound p h1).2; omega
        · rcases List.mem_singleton.mp h1 with rfl
          simp only []
          omega
      · show s.started + 1 = (s.completed ++ [(st, s.now)]).length +
          (if (some (s.now + 1)).isSome then 1 else 0)
        simp [hcount, List.length_append]
    | none =>
      rw [updateIndexItems_none s hr]
      rw [hr] at hcount
      simp only [Option.isSome_none] at hcount
      refine ⟨hpair, ?_, ?_, ?_⟩
      · intro p hp
        show p.1 ≤ p.2 ∧ p.2 < s.now + 1
        exact ⟨(hbound p hp).1, by have := (hbound p hp).2; omega⟩
      · intro st2 hst2
        have hst2' : s.now = st2 := by simpa using hst2
        refine ⟨by show st2 ≤ s.now + 1; omega, ?_⟩
        intro p hp
        show p.2 < st2
        have := (hbound p hp).2
        omega
      · show s.started + 1 = s.completed.length +
          (if (some s.now).isSome then 1 else 0)
        simp at hcount
        simp [hcount]
  | finishRunning =>
    show CoordInv (finishRunning s)
    cases hr : s.running with
    | some st =>
      rw [finishRunning_some s st hr]
      rcases hrun st hr with ⟨hst, hafter⟩
      rw [hr] at hcount
      simp only [Option.isSome_some, if_true] at hcount
      refine ⟨?_, ?_, ?_, ?_⟩
      · show (s.completed ++ [(st, s.now)]).Pairwise (fun a b => a.2 < b.1)
        rw [List.pairwise_append]
        exact ⟨hpair, List.pairwise_singleton _ _,
          fun a ha b hb => by
            rcases List.mem_singleton.mp hb with rfl
            exact hafter a ha⟩
      · intro p hp
        show p.1 ≤ p.2 ∧ p.2 < s.now + 1
        rcases List.mem_append.mp hp with h1 | h1
        · exact ⟨(hbound p h1).1, by have := (hbound p h1).2; omega⟩
        · rcases List.mem_singleton.mp h1 with rfl
          exact ⟨hst, by omega⟩
      · intro st2 hst2
        simp at hst2
      · show s.started = (s.completed ++ [(st, s.now)]).length +
          (if (none : Option Nat).isSome then 1 else 0)
        simp [hcount, List.length_append]
    | none =>
      rw [finishRunning_none s hr]
      rw [hr] at hcount
      refine ⟨hpair, ?_, ?_, ?_⟩
      · intro p hp
        show p.1 ≤ p.2 ∧ p.2 < s.now + 1
        exact ⟨(hbound p hp).1, by have := (hbound p hp).2; omega⟩
      · intro st2 hst2
        simp at hst2
      · show s.started = s.completed.length +
          (if (none : Option Nat).isSome then 1 else 0)
        simpa using hcount

theorem runFrom_inv (evs : List CEvent) :
    ∀ s : Coord, CoordInv s → CoordInv (runFrom s evs) := by
  induction evs with
  | nil => intro s h; exact h
  | cons e rest ih =>
    intro s h
    exact ih (cstep s e) (cstep_inv s e h)

theorem cstep_started (s : Coord) (e : CEvent) :
    (cstep s e).started =
      s.started + (match e with | .trigger => 1 | .finishRunning => 0) := by
  cases e with
  | trigger =>
    show (updateIndexItems s).started = s.started + 1
    unfold updateIndexItems
    cases s.running <;> rfl
  | finishRunning =>
    show (finishRunning s).started = s.started + 0
    unfold finishRunning
    cases s.running <;> rfl

theorem runFrom_started (evs : List CEvent) :
    ∀ s : Coord, (runFrom s evs).started = s.started + countTriggers evs := by
  induction evs with
  | nil => intro s; rfl
  | cons e rest ih =>
    intro s
    show (runFrom (cstep s e) rest).started = _
    rw [ih (cstep s e), cstep_started]
    cases e with
    | trigger => simp [countTriggers]; omega
    | finishRunning => simp [countTriggers]

theorem coordInv_init : CoordInv Coord.init := by
  refine ⟨List.Pairwise.nil, by simp [Coord.init], ?_, rfl⟩
  intro st hst
  simp [Coord.init] at hst

/-- C2: along every schedule, the finished rebuilds occupy pairwise-disjoint
intervals in order, the running rebuild started strictly after every
finished one finished (so two rebuilds never execute concurrently), each
trigger starts exactly one rebuild, and two back-to-back triggers yield one
finished rebuild plus exactly one new one started after it finished. -/
theorem rebuilds_serialized (evs : List CEvent) :
    ((coordRun evs).completed.Pairwise (fun a b => a.2 < b.1)) ∧
    (∀ p ∈ (coordRun evs).completed, p.1 ≤ p.2) ∧
    (∀ st, (coordRun evs).running = some st →
      ∀ p ∈ (coordRun evs).completed, p.2 < st) ∧
    (coordRun evs).started = countTriggers evs ∧
    coordRun [CEvent.trigger, CEvent.trigger] =
      ⟨3, some 2, [(0, 1)], 2⟩ := by
  have hinv := runFrom_inv evs Coord.init coordInv_init
  rcases hinv with ⟨hpair, hbound, hrun, _⟩
  refine ⟨hpair, fun p hp => (hbound p hp).1,
    fun st hst p hp => (hrun st hst).2 p hp, ?_, rfl⟩
  have h := runFrom_started evs Coord.init
  simpa [Coord.init, coordRun] using h

/-- Witness for C2: in the back-to-back schedule the one finished rebuild
ends at time 1 and the rebuild started by the second trigger starts at 2. -/
theorem rebuilds_serialized_witness :
    ((0, 1) : Nat × Nat).2 < 2 ∧
    (coordRun [CEvent.trigger, CEvent.trigger]).started =
      countTriggers [CEvent.trigger, CEvent.trigger] :=
  ⟨(rebuilds_serialized [CEvent.trigger, CEvent.trigger]).2.2.1 2
      (by decide) (0, 1) (by decide),
    (rebuilds_serialized [CEvent.trigger, CEvent.trigger]).2.2.2.1⟩

end Firefox
